import Mathlib

/-!
Verification of the `pocky` trading-game core.

This file gives a shallow embedding of the domain layer of the game server
(market-force ticker, game reducer, lobby reducer, matchmaking queue) and
proves or refutes the specified properties against it.

Modelling conventions:
* `PlayerId`, `GameId`, `LobbyId` are opaque identifiers with decidable
  equality; they are modelled as natural numbers.
* `std::time::Duration` is modelled as a whole number of milliseconds.
* `i32` money and prices are modelled as `ℤ`, `u32`/`usize` counters as `ℕ`
  (`saturating_sub` becomes truncated `ℕ` subtraction).
* `f32` quantities (force pressures, decay parameters) are idealised as exact
  rationals, and decay strengths as exact reals.
* `HashMap`/`HashSet` are modelled as association lists / lists; iteration
  order of the Rust maps is arbitrary, so one fixed order is used.
* The thread-local randomness drawn by `Ticker::next_delta` inside
  `PlayerTicker::tick` is threaded through `process_action` as an explicit
  oracle `deltas : PlayerId → ℤ` giving the signed price delta each player's
  ticker draws on this tick.  No proved statement depends on its value.
* Rust methods taking `&mut self` and returning `Result` become functions
  returning the (possibly mutated) state together with an `Except` value, so
  that "state is unchanged on error" is a provable statement rather than a
  modelling artefact.
-/

namespace Pocky

/-- Opaque 128-bit player identifier (src/domain/src/types.rs). -/
abbrev PlayerId := ℕ

/-- Opaque game identifier. -/
abbrev GameId := ℕ

/-- Opaque lobby identifier. -/
abbrev LobbyId := ℕ

/-- Durations are modelled as whole milliseconds. -/
abbrev Millis := ℕ

/-! ### Market-force ticker (src/domain/src/game/ticker.rs) -/

/-- Decay schedule of a market force (`enum Decay`).  `remaining`/`initial`
are `u32`; `half_life`/`age` are `f32`, idealised as rationals. -/
inductive Decay
  | Instant
  | Duration (remaining : ℕ)
  | Linear (remaining initial : ℕ)
  | Exponential (half_life age : ℚ)
  deriving DecidableEq

/-- Strength of a decay schedule (`Decay::strength`), `f32` arithmetic
idealised as real arithmetic (`0.5_f32.powf(x)` becomes a real power). -/
noncomputable def Decay.strength : Decay → ℝ
  | .Instant => 1
  | .Duration remaining => if 0 < remaining then 1 else 0
  | .Linear remaining initial =>
      if initial = 0 then 0 else (remaining : ℝ) / (initial : ℝ)
  | .Exponential half_life age =>
      if half_life ≤ 0 then 0 else Real.rpow (1/2) ((age : ℝ) / (half_life : ℝ))

/-- Positivity of a decay strength is decidable by cases on the schedule. -/
instance Decay.decStrengthPos : (d : Decay) → Decidable (0 < d.strength)
  | .Instant => isTrue (by simp [strength])
  | .Duration remaining =>
      if h : 0 < remaining then isTrue (by simp [strength, h])
      else isFalse (by simp [strength, h])
  | .Linear remaining initial =>
      if h : initial = 0 then isFalse (by simp [strength, h])
      else if h2 : remaining = 0 then isFalse (by simp [strength, h, h2])
      else isTrue (by
        simp only [strength, h, if_false]
        exact div_pos (by exact_mod_cast Nat.pos_of_ne_zero h2)
          (by exact_mod_cast Nat.pos_of_ne_zero h))
  | .Exponential half_life age =>
      if h : half_life ≤ 0 then isFalse (by simp [strength, h])
      else isTrue (by
        simp only [strength, h, if_false]
        exact Real.rpow_pos_of_pos (by norm_num) _)

/-- State transition of `Decay::tick` (the `&mut self` part).  The returned
`bool` is discarded by its only caller, `Ticker::tick`, and is not modelled. -/
def Decay.tick : Decay → Decay
  | .Instant => .Instant
  | .Duration remaining => .Duration (remaining - 1)
  | .Linear remaining initial => .Linear (remaining - 1) initial
  | .Exponential half_life age => .Exponential half_life (age + 1)

/-- Constructor `Decay::duration`. -/
def Decay.duration (ticks : ℕ) : Decay := .Duration ticks

/-- Constructor `Decay::linear`. -/
def Decay.linear (ticks : ℕ) : Decay := .Linear ticks ticks

/-- Constructor `Decay::exponential`. -/
def Decay.exponential (half_life : ℚ) : Decay := .Exponential half_life 0

/-- A transient market force (`struct MarketForce`). -/
structure MarketForce where
  pressure : ℚ
  volatility : ℚ
  decay : Decay
  deriving DecidableEq

/-- Effective pressure of a force (`MarketForce::effective_pressure`). -/
noncomputable def MarketForce.effective_pressure (f : MarketForce) : ℝ :=
  (f.pressure : ℝ) * f.decay.strength

/-- Effective volatility of a force (`MarketForce::effective_volatility`). -/
noncomputable def MarketForce.effective_volatility (f : MarketForce) : ℝ :=
  (f.volatility : ℝ) * f.decay.strength

/-- Price ticker with decaying market forces (`struct Ticker`). -/
structure Ticker where
  base_volatility : ℤ
  base_pressure : ℤ
  forces : List MarketForce
  deriving DecidableEq

/-- Constructor `Ticker::new`. -/
def Ticker.new (base_volatility : ℤ) : Ticker :=
  { base_volatility := base_volatility, base_pressure := 0, forces := [] }

/-- Transition of `Ticker::tick`: age every force by one step, then retain
exactly the forces whose decay strength is strictly positive. -/
def Ticker.tick (t : Ticker) : Ticker :=
  let aged := t.forces.map fun f => { f with decay := f.decay.tick }
  { t with forces := aged.filter fun f => decide (0 < f.decay.strength) }

/-- Method `Ticker::add_force`. -/
def Ticker.add_force (t : Ticker) (pressure volatility : ℚ) (decay : Decay) : Ticker :=
  { t with forces := t.forces ++ [⟨pressure, volatility, decay⟩] }

/-- Hook `Ticker::on_bid_placed`: fast bullish force plus slow bearish
reversion. -/
def Ticker.on_bid_placed (t : Ticker) (bid_value : ℚ) : Ticker :=
  (t.add_force (bid_value / 800) 0 (Decay.linear 5)).add_force
    (-bid_value / 3000) 0 (Decay.linear 20)

/-- Hook `Ticker::on_ask_placed`: fast bearish spike plus slow bullish
reversion. -/
def Ticker.on_ask_placed (t : Ticker) (ask_value : ℚ) : Ticker :=
  (t.add_force (-ask_value / 800) 0 (Decay.linear 5)).add_force
    (ask_value / 3000) 0 (Decay.linear 20)

/-- Hook `Ticker::on_bid_filled` (0.08 volatility spike written as `8/100`). -/
def Ticker.on_bid_filled (t : Ticker) (filled_at : ℚ) : Ticker :=
  (t.add_force (-filled_at / 1000) (8/100) (Decay.linear 4)).add_force
    (filled_at / 2640) 0 (Decay.linear 18)

/-- Hook `Ticker::on_ask_filled`. -/
def Ticker.on_ask_filled (t : Ticker) (filled_at : ℚ) : Ticker :=
  (t.add_force (filled_at / 1000) (8/100) (Decay.linear 4)).add_force
    (-filled_at / 2640) 0 (Decay.linear 18)

/-- Per-player price series (`struct PlayerTicker`). -/
structure PlayerTicker where
  ticker : Ticker
  current_price : ℤ
  deriving DecidableEq

/-- Constructor `PlayerTicker::new`. -/
def PlayerTicker.new (base_volatility starting_price : ℤ) : PlayerTicker :=
  { ticker := Ticker.new base_volatility, current_price := starting_price }

/-- Transition of `PlayerTicker::tick`: age the ticker, then move the price by
the drawn delta, clamped at zero.  `delta` is the oracle value standing for
the random draw of `Ticker::next_delta`. -/
def PlayerTicker.tick (pt : PlayerTicker) (delta : ℤ) : PlayerTicker :=
  { ticker := pt.ticker.tick, current_price := max 0 (pt.current_price + delta) }

/-! ### Game data model (src/domain/src/game/) -/

/-- Game phases (`enum GamePhase`). -/
inductive GamePhase
  | Pending
  | Running
  | Ended
  deriving DecidableEq

/-- Immutable game configuration (`struct GameConfig`), durations in ms. -/
structure GameConfig where
  tick_interval : Millis
  game_duration : Millis
  max_price_delta : ℤ
  starting_price : ℤ
  countdown_duration : Millis
  starting_balance : ℤ
  deriving DecidableEq

/-- The `Default` impl of `GameConfig`. -/
def GameConfig.default : GameConfig :=
  { tick_interval := 250, game_duration := 180000, max_price_delta := 25
    starting_price := 100, countdown_duration := 3000, starting_balance := 1000 }

/-- Per-player account (`struct PlayerState`). -/
structure PlayerState where
  cash : ℤ
  shares : List ℤ
  open_bids : List ℤ
  open_asks : List ℤ
  deriving DecidableEq

/-- Constructor `PlayerState::new`. -/
def PlayerState.new (starting_cash : ℤ) : PlayerState :=
  { cash := starting_cash, shares := [], open_bids := [], open_asks := [] }

/-- Derived view `PlayerState::available_cash`. -/
def PlayerState.available_cash (p : PlayerState) : ℤ :=
  p.cash - p.open_bids.sum

/-- Derived view `PlayerState::available_shares` (`saturating_sub` is `ℕ`
subtraction). -/
def PlayerState.available_shares (p : PlayerState) : ℕ :=
  p.shares.length - p.open_asks.length

/-- Derived view `PlayerState::net_worth`. -/
def PlayerState.net_worth (p : PlayerState) (current_price : ℤ) : ℤ :=
  p.cash + p.shares.length * current_price

/-- Actions of the game reducer (`enum GameAction`). -/
inductive GameAction
  | Countdown (remaining : ℕ)
  | Start
  | Tick
  | Bid (player_id : PlayerId) (bid_value : ℤ)
  | Ask (player_id : PlayerId) (ask_value : ℤ)
  | CancelBid (player_id : PlayerId) (price : ℤ)
  | CancelAsk (player_id : PlayerId) (price : ℤ)
  | End
  deriving DecidableEq

/-- Externally visible events (`enum GameEvent`). -/
inductive GameEvent
  | Countdown (remaining : ℕ)
  | GameStarted (starting_price starting_balance : ℤ)
      (players : List PlayerId) (game_duration_secs : ℕ)
  | PriceChanged (player_id : PlayerId) (price : ℤ)
  | BidPlaced (player_id : PlayerId) (bid_value : ℤ)
  | AskPlaced (player_id : PlayerId) (ask_value : ℤ)
  | BidFilled (player_id : PlayerId) (bid_value : ℤ)
  | AskFilled (player_id : PlayerId) (ask_value : ℤ)
  | BidCanceled (player_id : PlayerId) (price : ℤ)
  | AskCanceled (player_id : PlayerId) (price : ℤ)
  | GameEnded (final_balances : List (PlayerId × ℤ))
  deriving DecidableEq

/-- Effects emitted by the reducer (`enum GameEffect`). -/
inductive GameEffect
  | Notification (player_id : PlayerId) (event : GameEvent)
  | DelayedAction (delay : Millis) (action : GameAction)
  deriving DecidableEq

/-- Reducer errors (`enum GameError`). -/
inductive GameError
  | InvalidPhase (action : String) (phase : GamePhase)
  | InsufficientFunds (available required : ℤ)
  | InsufficientShares (available required : ℕ)
  | PlayerNotFound (player_id : PlayerId)
  | OrderNotFound (order_type : String) (price : ℤ)
  deriving DecidableEq

/-- The game aggregate (`struct GameState`); the two `HashMap`s are modelled
as association lists in a fixed (arbitrary) iteration order. -/
structure GameState where
  phase : GamePhase
  config : GameConfig
  players : List (PlayerId × PlayerState)
  player_tickers : List (PlayerId × PlayerTicker)
  ticks_remaining : ℕ
  deriving DecidableEq

/-- Constructor `GameState::new`.  Collecting the player list into a
`HashMap` keeps one entry per distinct id (duplicates collapse, and every
duplicate maps to the same freshly constructed value), modelled by `dedup`. -/
def GameState.new (players : List PlayerId) (config : GameConfig) : GameState :=
  let tick_count := config.game_duration / config.tick_interval
  let ids := players.dedup
  { phase := .Pending
    config := config
    players := ids.map fun pid => (pid, PlayerState.new config.starting_balance)
    player_tickers := ids.map fun pid => (pid, PlayerTicker.new config.max_price_delta 0)
    ticks_remaining := tick_count }

/-- Lookup of `self.players.get(&pid)`. -/
def lookupPlayer (s : GameState) (pid : PlayerId) : Option PlayerState :=
  (s.players.find? fun e => e.1 == pid).map (·.2)

/-- The per-player price snapshot `player_prices.get(&pid).copied().unwrap_or(0)`
used by the resolution loops and by `handle_game_end`. -/
def priceOf (tickers : List (PlayerId × PlayerTicker)) (pid : PlayerId) : ℤ :=
  ((tickers.find? fun e => e.1 == pid).map fun e => e.2.current_price).getD 0

/-- In-place mutation of one entry of the `players` map
(`self.players.get_mut(&pid)` followed by a field update). -/
def GameState.updatePlayer (s : GameState) (pid : PlayerId)
    (f : PlayerState → PlayerState) : GameState :=
  { s with players := s.players.map fun e => if e.1 = pid then (e.1, f e.2) else e }

/-- In-place mutation of every ticker
(`for player_ticker in self.player_tickers.values_mut()`). -/
def GameState.mapTickers (s : GameState) (f : PlayerTicker → PlayerTicker) : GameState :=
  { s with player_tickers := s.player_tickers.map fun e => (e.1, f e.2) }

/-! ### Game reducer (src/domain/src/game/state.rs) -/

/-- Handler `GameState::handle_countdown`: notify every player, no phase
gate, no state change. -/
def GameState.handle_countdown (s : GameState) (remaining : ℕ) :
    GameState × Except GameError (List GameEffect) :=
  (s, .ok (s.players.map fun e => .Notification e.1 (.Countdown remaining)))

/-- Handler `GameState::handle_start`. -/
def GameState.handle_start (s : GameState) :
    GameState × Except GameError (List GameEffect) :=
  if s.phase ≠ .Pending then (s, .error (.InvalidPhase "Start" s.phase))
  else
    let starting_price := s.config.starting_price
    let s' := { s with phase := .Running,
                       player_tickers := s.player_tickers.map
                         fun (e : PlayerId × PlayerTicker) =>
                           (e.1, { e.2 with current_price := starting_price }) }
    let player_ids := s'.players.map (·.1)
    let started := player_ids.map fun pid =>
      GameEffect.Notification pid (.GameStarted starting_price s.config.starting_balance
        player_ids (s.config.game_duration / 1000))
    (s', .ok (started ++ [.DelayedAction s.config.tick_interval .Tick]))

/-- Indices collected by `resolve_bids` (`bid >= current_price`). -/
def filledBidIdx (p : ℤ) (bids : List ℤ) : List ℕ :=
  (bids.enum.filter fun e => decide (p ≤ e.2)).map (·.1)

/-- One iteration of the reverse-index removal loop of `resolve_bids`:
remove the bid, buy one share at the current price. -/
def fillBidStep (p : ℤ) (pid : PlayerId) :
    PlayerState × List (PlayerId × ℤ) → ℕ → PlayerState × List (PlayerId × ℤ)
  | (st, resolved), i =>
    let bid_value := st.open_bids.getD i 0
    ({ st with open_bids := st.open_bids.eraseIdx i,
               shares := st.shares ++ [p],
               cash := st.cash - p },
     resolved ++ [(pid, bid_value)])

/-- The per-player body of `resolve_bids`: filled indices processed in
reverse order. -/
def fillPlayerBids (p : ℤ) (pid : PlayerId) (st : PlayerState) :
    PlayerState × List (PlayerId × ℤ) :=
  ((filledBidIdx p st.open_bids).reverse).foldl (fillBidStep p pid) (st, [])

/-- Method `GameState::resolve_bids`: fill every player's qualifying bids at
that player's own price, then feed `on_bid_filled` into every ticker once per
resolved bid. -/
def GameState.resolve_bids (s : GameState) : GameState × List (PlayerId × ℤ) :=
  let fill := fun (e : PlayerId × PlayerState) =>
    fillPlayerBids (priceOf s.player_tickers e.1) e.1 e.2
  let players' := s.players.map fun e => (e.1, (fill e).1)
  let resolved := s.players.flatMap fun e => (fill e).2
  let tickers' := resolved.foldl
    (fun tk pr => tk.map fun t =>
      (t.1, { t.2 with ticker := t.2.ticker.on_bid_filled ((priceOf s.player_tickers pr.1 : ℤ) : ℚ) }))
    s.player_tickers
  ({ s with players := players', player_tickers := tickers' }, resolved)

/-- Indices collected by `resolve_asks` (`ask <= current_price`). -/
def filledAskIdx (p : ℤ) (asks : List ℤ) : List ℕ :=
  (asks.enum.filter fun e => decide (e.2 ≤ p)).map (·.1)

/-- One iteration of the reverse-index removal loop of `resolve_asks`:
remove the ask, pop one share if any, credit the current price. -/
def fillAskStep (p : ℤ) (pid : PlayerId) :
    PlayerState × List (PlayerId × ℤ) → ℕ → PlayerState × List (PlayerId × ℤ)
  | (st, resolved), i =>
    let ask_value := st.open_asks.getD i 0
    ({ st with open_asks := st.open_asks.eraseIdx i,
               shares := if st.shares.isEmpty then st.shares else st.shares.dropLast,
               cash := st.cash + p },
     resolved ++ [(pid, ask_value)])

/-- The per-player body of `resolve_asks`. -/
def fillPlayerAsks (p : ℤ) (pid : PlayerId) (st : PlayerState) :
    PlayerState × List (PlayerId × ℤ) :=
  ((filledAskIdx p st.open_asks).reverse).foldl (fillAskStep p pid) (st, [])

/-- Method `GameState::resolve_asks`. -/
def GameState.resolve_asks (s : GameState) : GameState × List (PlayerId × ℤ) :=
  let fill := fun (e : PlayerId × PlayerState) =>
    fillPlayerAsks (priceOf s.player_tickers e.1) e.1 e.2
  let players' := s.players.map fun e => (e.1, (fill e).1)
  let resolved := s.players.flatMap fun e => (fill e).2
  let tickers' := resolved.foldl
    (fun tk pr => tk.map fun t =>
      (t.1, { t.2 with ticker := t.2.ticker.on_ask_filled ((priceOf s.player_tickers pr.1 : ℤ) : ℚ) }))
    s.player_tickers
  ({ s with players := players', player_tickers := tickers' }, resolved)

/-- Handler `GameState::handle_price_tick`. -/
def GameState.handle_price_tick (s : GameState) (deltas : PlayerId → ℤ) :
    GameState × Except GameError (List GameEffect) :=
  if s.phase ≠ .Running then (s, .error (.InvalidPhase "PriceTick" s.phase))
  else if s.ticks_remaining = 0 then (s, .error (.InvalidPhase "PriceTick" .Ended))
  else
    let s1 := { s with ticks_remaining := s.ticks_remaining - 1,
                       player_tickers := s.player_tickers.map
                         fun (e : PlayerId × PlayerTicker) => (e.1, e.2.tick (deltas e.1)) }
    let rb := s1.resolve_bids
    let ra := rb.1.resolve_asks
    let s3 := ra.1
    let player_ids := s3.players.map (·.1)
    let prices := s3.player_tickers.map fun e => (e.1, e.2.current_price)
    let price_notifications := player_ids.flatMap fun notify =>
      prices.map fun pr => GameEffect.Notification notify (.PriceChanged pr.1 pr.2)
    let bid_notifications := rb.2.flatMap fun ob =>
      player_ids.map fun notify => GameEffect.Notification notify (.BidFilled ob.1 ob.2)
    let ask_notifications := ra.2.flatMap fun oa =>
      player_ids.map fun notify => GameEffect.Notification notify (.AskFilled oa.1 oa.2)
    let next_action := if s3.ticks_remaining = 0 then GameAction.End else GameAction.Tick
    (s3, .ok (price_notifications ++ bid_notifications ++ ask_notifications ++
              [.DelayedAction s.config.tick_interval next_action]))

/-- Handler `GameState::handle_game_end`. -/
def GameState.handle_game_end (s : GameState) :
    GameState × Except GameError (List GameEffect) :=
  if s.phase ≠ .Running then (s, .error (.InvalidPhase "End" s.phase))
  else
    let s' := { s with phase := .Ended }
    let final_balances := s'.players.map fun e =>
      (e.1, e.2.net_worth (priceOf s'.player_tickers e.1))
    (s', .ok (s'.players.map fun e => .Notification e.1 (.GameEnded final_balances)))

/-- Handler `GameState::handle_bid`. -/
def GameState.handle_bid (s : GameState) (player_id : PlayerId) (bid_value : ℤ) :
    GameState × Except GameError (List GameEffect) :=
  if s.phase ≠ .Running then (s, .error (.InvalidPhase "Bid" s.phase))
  else
    let available := ((lookupPlayer s player_id).map PlayerState.available_cash).getD 0
    if available < bid_value then (s, .error (.InsufficientFunds available bid_value))
    else
      let s' := (s.updatePlayer player_id fun st =>
          { st with open_bids := st.open_bids ++ [bid_value] }).mapTickers
        fun pt => { pt with ticker := pt.ticker.on_bid_placed (bid_value : ℚ) }
      (s', .ok (s'.players.map fun e => .Notification e.1 (.BidPlaced player_id bid_value)))

/-- Handler `GameState::handle_ask`. -/
def GameState.handle_ask (s : GameState) (player_id : PlayerId) (ask_value : ℤ) :
    GameState × Except GameError (List GameEffect) :=
  if s.phase ≠ .Running then (s, .error (.InvalidPhase "Ask" s.phase))
  else
    let available := ((lookupPlayer s player_id).map PlayerState.available_shares).getD 0
    if available = 0 then (s, .error (.InsufficientShares available 1))
    else
      let s' := (s.updatePlayer player_id fun st =>
          { st with open_asks := st.open_asks ++ [ask_value] }).mapTickers
        fun pt => { pt with ticker := pt.ticker.on_ask_placed (ask_value : ℚ) }
      (s', .ok (s'.players.map fun e => .Notification e.1 (.AskPlaced player_id ask_value)))

/-- Handler `GameState::handle_cancel_bid`. -/
def GameState.handle_cancel_bid (s : GameState) (player_id : PlayerId) (price : ℤ) :
    GameState × Except GameError (List GameEffect) :=
  if s.phase ≠ .Running then (s, .error (.InvalidPhase "CancelBid" s.phase))
  else
    match lookupPlayer s player_id with
    | none => (s, .error (.PlayerNotFound player_id))
    | some st =>
      match st.open_bids.findIdx? (fun b => b == price) with
      | none => (s, .error (.OrderNotFound "bid" price))
      | some idx =>
        let s' := s.updatePlayer player_id fun st =>
          { st with open_bids := st.open_bids.eraseIdx idx }
        (s', .ok (s'.players.map fun e => .Notification e.1 (.BidCanceled player_id price)))

/-- Handler `GameState::handle_cancel_ask`. -/
def GameState.handle_cancel_ask (s : GameState) (player_id : PlayerId) (price : ℤ) :
    GameState × Except GameError (List GameEffect) :=
  if s.phase ≠ .Running then (s, .error (.InvalidPhase "CancelAsk" s.phase))
  else
    match lookupPlayer s player_id with
    | none => (s, .error (.PlayerNotFound player_id))
    | some st =>
      match st.open_asks.findIdx? (fun a => a == price) with
      | none => (s, .error (.OrderNotFound "ask" price))
      | some idx =>
        let s' := s.updatePlayer player_id fun st =>
          { st with open_asks := st.open_asks.eraseIdx idx }
        (s', .ok (s'.players.map fun e => .Notification e.1 (.AskCanceled player_id price)))

/-- The game reducer `GameState::process_action`. -/
def GameState.process_action (s : GameState) (action : GameAction)
    (deltas : PlayerId → ℤ) : GameState × Except GameError (List GameEffect) :=
  match action with
  | .Countdown remaining => s.handle_countdown remaining
  | .Start => s.handle_start
  | .Tick => s.handle_price_tick deltas
  | .Bid player_id bid_value => s.handle_bid player_id bid_value
  | .Ask player_id ask_value => s.handle_ask player_id ask_value
  | .CancelBid player_id price => s.handle_cancel_bid player_id price
  | .CancelAsk player_id price => s.handle_cancel_ask player_id price
  | .End => s.handle_game_end

/-! ### Lobby reducer (src/src/domain/lobby.rs) -/

/-- Lobby phases (`enum LobbyPhase`). -/
inductive LobbyPhase
  | WaitingForReady
  | CountingDown (remaining_seconds : ℕ)
  | GameStarted (game_id : GameId)
  | Cancelled
  deriving DecidableEq

/-- Lobby actions (`enum LobbyAction`). -/
inductive LobbyAction
  | PlayerArrived (player_id : PlayerId)
  | PlayerReady (player_id : PlayerId)
  | PlayerUnready (player_id : PlayerId)
  | PlayerDisconnected (player_id : PlayerId)
  | CountdownTick
  | StartGame (game_id : GameId)
  deriving DecidableEq

/-- Lobby events (`enum LobbyEvent`). -/
inductive LobbyEvent
  | PlayerArrived (player_id : PlayerId)
  | PlayerReady (player_id : PlayerId)
  | PlayerUnready (player_id : PlayerId)
  | PlayerDisconnected (player_id : PlayerId)
  | CountdownStarted (seconds : ℕ)
  | CountdownTick (remaining_seconds : ℕ)
  | CountdownCancelled
  | GameStarting (game_id : GameId)
  | LobbyCancelled
  deriving DecidableEq

/-- Lobby effects (`enum LobbyEffect`). -/
inductive LobbyEffect
  | Notify (player_id : PlayerId) (event : LobbyEvent)
  | Broadcast (event : LobbyEvent)
  | ScheduleCountdownTick (delay_seconds : ℕ)
  | CreateGame (lobby_id : LobbyId) (players : List PlayerId)
  deriving DecidableEq

/-- The lobby aggregate (`struct LobbyState`); the two `HashSet`s are modelled
as duplicate-free lists in a fixed (arbitrary) iteration order. -/
structure LobbyState where
  id : LobbyId
  expected_players : List PlayerId
  arrived_players : List PlayerId
  ready_players : List PlayerId
  phase : LobbyPhase
  deriving DecidableEq

/-- Insertion into a `HashSet` modelled on lists: append when absent. -/
def setInsert (l : List PlayerId) (pid : PlayerId) : List PlayerId :=
  if pid ∈ l then l else l ++ [pid]

/-- Constructor `LobbyState::new`. -/
def LobbyState.new (id : LobbyId) (expected_players : List PlayerId) : LobbyState :=
  { id := id, expected_players := expected_players,
    arrived_players := [], ready_players := [], phase := .WaitingForReady }

/-- Predicate `LobbyState::all_players_ready`. -/
def LobbyState.all_players_ready (s : LobbyState) : Bool :=
  !s.arrived_players.isEmpty &&
    s.arrived_players.all fun p => s.ready_players.contains p

/-- Handler `LobbyState::handle_player_arrived`. -/
def LobbyState.handle_player_arrived (s : LobbyState) (player_id : PlayerId) :
    LobbyState × List LobbyEffect :=
  if player_id ∉ s.expected_players then (s, [])
  else ({ s with arrived_players := setInsert s.arrived_players player_id },
        [.Broadcast (.PlayerArrived player_id)])

/-- Handler `LobbyState::handle_player_ready`. -/
def LobbyState.handle_player_ready (s : LobbyState) (player_id : PlayerId) :
    LobbyState × List LobbyEffect :=
  if player_id ∉ s.arrived_players then (s, [])
  else if s.phase ≠ .WaitingForReady then (s, [])
  else
    let s' := { s with ready_players := setInsert s.ready_players player_id }
    if s'.all_players_ready then
      ({ s' with phase := .CountingDown 10 },
       [.Broadcast (.PlayerReady player_id),
        .Broadcast (.CountdownStarted 10),
        .ScheduleCountdownTick 1])
    else (s', [.Broadcast (.PlayerReady player_id)])

/-- Handler `LobbyState::handle_player_unready`. -/
def LobbyState.handle_player_unready (s : LobbyState) (player_id : PlayerId) :
    LobbyState × List LobbyEffect :=
  if player_id ∉ s.ready_players then (s, [])
  else
    let s' := { s with ready_players := s.ready_players.erase player_id }
    match s'.phase with
    | .CountingDown _ =>
        ({ s' with phase := .WaitingForReady },
         [.Broadcast (.PlayerUnready player_id), .Broadcast .CountdownCancelled])
    | _ => (s', [.Broadcast (.PlayerUnready player_id)])

/-- Handler `LobbyState::handle_player_disconnected`.  A countdown in
progress deliberately continues. -/
def LobbyState.handle_player_disconnected (s : LobbyState) (player_id : PlayerId) :
    LobbyState × List LobbyEffect :=
  let s' := { s with arrived_players := s.arrived_players.erase player_id,
                     ready_players := s.ready_players.erase player_id }
  if s'.arrived_players.isEmpty then
    ({ s' with phase := .Cancelled },
     [.Broadcast (.PlayerDisconnected player_id), .Broadcast .LobbyCancelled])
  else (s', [.Broadcast (.PlayerDisconnected player_id)])

/-- Handler `LobbyState::handle_countdown_tick`. -/
def LobbyState.handle_countdown_tick (s : LobbyState) :
    LobbyState × List LobbyEffect :=
  match s.phase with
  | .CountingDown remaining_seconds =>
      if 1 < remaining_seconds then
        ({ s with phase := .CountingDown (remaining_seconds - 1) },
         [.Broadcast (.CountdownTick (remaining_seconds - 1)),
          .ScheduleCountdownTick 1])
      else (s, [.CreateGame s.id s.arrived_players])
  | _ => (s, [])

/-- Handler `LobbyState::handle_start_game`. -/
def LobbyState.handle_start_game (s : LobbyState) (game_id : GameId) :
    LobbyState × List LobbyEffect :=
  ({ s with phase := .GameStarted game_id },
   [.Broadcast (.GameStarting game_id)])

/-- The lobby reducer `LobbyState::process_action` (infallible). -/
def LobbyState.process_action (s : LobbyState) (action : LobbyAction) :
    LobbyState × List LobbyEffect :=
  match action with
  | .PlayerArrived player_id => s.handle_player_arrived player_id
  | .PlayerReady player_id => s.handle_player_ready player_id
  | .PlayerUnready player_id => s.handle_player_unready player_id
  | .PlayerDisconnected player_id => s.handle_player_disconnected player_id
  | .CountdownTick => s.handle_countdown_tick
  | .StartGame game_id => s.handle_start_game game_id

/-! ### Matchmaking queue (src/domain/src/queue.rs) -/

/-- Queue configuration (`struct MatchmakingConfig`); the field is private
and the only constructor is `Default`, which sets 2. -/
structure MatchmakingConfig where
  players_to_start : ℕ
  deriving DecidableEq

/-- The `Default` impl of `MatchmakingConfig`. -/
def MatchmakingConfig.default : MatchmakingConfig := { players_to_start := 2 }

/-- The matchmaking queue (`struct MatchmakingQueue`). -/
structure MatchmakingQueue where
  queue : List PlayerId
  config : MatchmakingConfig
  deriving DecidableEq

/-- Constructor `MatchmakingQueue::new` (= `Default`). -/
def MatchmakingQueue.new : MatchmakingQueue :=
  { queue := [], config := MatchmakingConfig.default }

/-- Queue commands (`enum MatchmakingCommand`). -/
inductive MatchmakingCommand
  | PlayerJoin (player_id : PlayerId)
  | PlayerLeave (player_id : PlayerId)
  | TryMatchmake
  deriving DecidableEq

/-- Queue outcomes (`enum MatchmakingOutcome`). -/
inductive MatchmakingOutcome
  | Matched (players : List PlayerId)
  | Enqueued (player_id : PlayerId)
  | Dequeued (player_id : PlayerId)
  | PlayerNotFound
  | AlreadyQueued
  deriving DecidableEq

/-- The queue reducer `MatchmakingQueue::handle_command`.  The `TryMatchmake`
arm calls `Vec::remove(0)` twice unconditionally once the length guard
passes; with fewer than two entries (possible when `players_to_start < 2`)
the second `remove(0)` panics, modelled as `none`. -/
def MatchmakingQueue.handle_command (q : MatchmakingQueue)
    (command : MatchmakingCommand) :
    Option (MatchmakingQueue × MatchmakingOutcome) :=
  match command with
  | .PlayerJoin player_id =>
      if player_id ∈ q.queue then some (q, .AlreadyQueued)
      else some ({ q with queue := q.queue ++ [player_id] }, .Enqueued player_id)
  | .PlayerLeave player_id =>
      match q.queue.findIdx? (fun pid => pid == player_id) with
      | some pos => some ({ q with queue := q.queue.eraseIdx pos }, .Dequeued player_id)
      | none => some (q, .PlayerNotFound)
  | .TryMatchmake =>
      if q.config.players_to_start ≤ q.queue.length then
        match q.queue with
        | a :: b :: rest => some ({ q with queue := rest }, .Matched [a, b])
        | _ => none
      else some (q, .Matched [])

/-! ### Reachability of game states -/

/-- The action predicate for the amended cash invariant: every `Bid` carries
a nonnegative bid value (other actions are unrestricted). -/
def GameAction.nonnegBid : GameAction → Prop
  | .Bid _ v => 0 ≤ v
  | _ => True

/-- Game states reachable from `GameState::new` through successful
`process_action` calls, for any outcomes of the price-delta randomness. -/
inductive Reachable : GameState → Prop
  | base (players : List PlayerId) (config : GameConfig) :
      Reachable (GameState.new players config)
  | step {s s' : GameState} (a : GameAction) (deltas : PlayerId → ℤ)
      (effects : List GameEffect) : Reachable s →
      s.process_action a deltas = (s', .ok effects) → Reachable s'

/-- Reachability restricted to nonnegative starting balances and
nonnegative bid values. -/
inductive ReachableNN : GameState → Prop
  | base (players : List PlayerId) (config : GameConfig)
      (h : 0 ≤ config.starting_balance) :
      ReachableNN (GameState.new players config)
  | step {s s' : GameState} (a : GameAction) (deltas : PlayerId → ℤ)
      (effects : List GameEffect) (ha : a.nonnegBid) : ReachableNN s →
      s.process_action a deltas = (s', .ok effects) → ReachableNN s'

/-- Discriminator for successful reducer results. -/
def isOkE {ε α : Type} : Except ε α → Bool
  | .ok _ => true
  | .error _ => false

/-- The effects payload of a successful reducer result. -/
def okEffects {ε α : Type} : Except ε (List α) → List α
  | .ok l => l
  | .error _ => []

/-- Discriminator for `DelayedAction` effects. -/
def isDelayedEff : GameEffect → Bool
  | .DelayedAction _ _ => true
  | .Notification _ _ => false

/-! ### Concrete test fixtures

These mirror `test_config` and the `TestHarness` helpers of
src/domain/src/game/tests.rs: `at_price`/`set_price` force every player's
ticker to a given price, and `at_price` forces the phase to `Running`. -/

/-- The reducer test configuration (`test_config()` in tests.rs). -/
def testConfig : GameConfig :=
  { tick_interval := 1000, game_duration := 10000, max_price_delta := 10
    starting_price := 50, countdown_duration := 3000, starting_balance := 100 }

/-- A fixed delta oracle; no statement below depends on its values. -/
def zeroDeltas : PlayerId → ℤ := fun _ => 0

/-- The `set_price` test helper: force every player ticker to price `p`. -/
def setPrice (s : GameState) (p : ℤ) : GameState :=
  { s with player_tickers := s.player_tickers.map
              (fun (e : PlayerId × PlayerTicker) => (e.1, { e.2 with current_price := p })) }

/-- Scenario S1, start: one player (id 0) with starting balance 100, forced
to `Running`; every price is 0 (as `PlayerTicker::new` initialises it). -/
def s1Start : GameState := { GameState.new [0] testConfig with phase := .Running }

/-- Scenario S1 after placing bids 20, 40, 40. -/
def s1AfterBids : GameState :=
  (((s1Start.process_action (.Bid 0 20) zeroDeltas).1.process_action
      (.Bid 0 40) zeroDeltas).1.process_action (.Bid 0 40) zeroDeltas).1

/-- Scenario S1 after forcing the price to 30 and calling `resolve_bids`. -/
def s1Resolved : GameState := ((setPrice s1AfterBids 30).resolve_bids).1

/-- Scenario S1 after placing ask 75, forcing the price to 100 and calling
`resolve_asks`. -/
def s1Final : GameState :=
  ((setPrice ((s1Resolved.process_action (.Ask 0 75) zeroDeltas).1) 100).resolve_asks).1

/-- Counterexample fixture for the cash invariant: a fresh one-player game
with starting balance 100. -/
def cex1Game : GameState := GameState.new [0] testConfig

/-- The counterexample action chain: `Start`, `Bid 0 (-50)`, `Bid 0 150`,
`CancelBid 0 (-50)` — every step succeeds. -/
def cex1Final : GameState :=
  ((((cex1Game.process_action .Start zeroDeltas).1.process_action
        (.Bid 0 (-50)) zeroDeltas).1.process_action
      (.Bid 0 150) zeroDeltas).1.process_action (.CancelBid 0 (-50)) zeroDeltas).1

/-- A ticker holding a single exponentially decaying force of age 6 with
half-life 1 (strength `0.5^6`), as counterexample fixture for pruning. -/
def tickerExp : Ticker := ⟨1, 0, [⟨0, 0, .Exponential 1 6⟩]⟩

/-- A ticker holding one non-decaying force, witness fixture. -/
def tickerInstant : Ticker := ⟨1, 0, [⟨0, 0, .Instant⟩]⟩

/-- A one-player game forced to the `Ended` phase. -/
def endedGame : GameState := { GameState.new [0] testConfig with phase := .Ended }

/-- A running one-player game used by witnesses; player 1 exists, player 2
does not. -/
def running1Game : GameState := { GameState.new [1] testConfig with phase := .Running }

/-- A queue already holding player 7 (default configuration). -/
def queue7 : MatchmakingQueue := ⟨[7], MatchmakingConfig.default⟩

/-- A queue of three players whose `players_to_start` is 3 (constructible
inside the `domain` crate where the field is visible). -/
def queue3cfg3 : MatchmakingQueue := ⟨[1, 2, 3], ⟨3⟩⟩

/-- A single-player lobby in `CountingDown 10` with its player ready. -/
def lobbyCounting : LobbyState := ⟨0, [1], [1], [1], .CountingDown 10⟩

/-- Iterated `CountdownTick` processing on a lobby. -/
def applyTicks (s : LobbyState) : ℕ → LobbyState
  | 0 => s
  | k + 1 => ((applyTicks s k).process_action .CountdownTick).1

/-- The cash invariant carried through the reachability induction: every
player account has nonnegative available cash and only nonnegative open bid
values, and the players map has no duplicate keys (as a `HashMap` cannot). -/
def cashInv (s : GameState) : Prop :=
  (∀ e ∈ s.players, 0 ≤ e.2.available_cash ∧ ∀ b ∈ e.2.open_bids, 0 ≤ b) ∧
  (s.players.map (·.1)).Nodup

/-! ### General list lemmas -/

theorem map_id_of {α : Type} (l : List α) (f : α → α) (h : ∀ x ∈ l, f x = x) :
    l.map f = l := by
  induction l with
  | nil => rfl
  | cons a t ih =>
      rw [List.map_cons, h a (List.mem_cons_self a t),
        ih fun x hx => h x (List.mem_cons_of_mem a hx)]

theorem eraseIdx_append_self {α : Type} (l : List α) (x : α) :
    (l ++ [x]).eraseIdx l.length = l := by
  induction l with
  | nil => rfl
  | cons a t ih => simpa [List.eraseIdx_cons_succ] using ih

theorem findIdx?_append_self (l : List PlayerId) (x : PlayerId) (h : x ∉ l) :
    List.findIdx? (fun b => b == x) (l ++ [x]) = some l.length := by
  rw [List.findIdx?_append]
  have h1 : List.findIdx? (fun b => b == x) l = none := by
    rw [List.findIdx?_eq_none_iff]
    intro y hy
    simp only [beq_eq_false_iff_ne, ne_eq]
    exact fun he => h (he ▸ hy)
  rw [h1]
  simp [List.findIdx?_cons]

/-! ### Claim C6 — countdown notifications and the missing phase gate -/

/-- Claim C6, counterexample: `handle_countdown` has no phase gate, so a
`Countdown` action in the `Ended` phase succeeds with the usual broadcast
instead of returning `InvalidPhase` as the claim demands. -/
theorem C6_countdown_counterexample :
    endedGame.phase = .Ended ∧
    endedGame.process_action (.Countdown 5) zeroDeltas =
      (endedGame, .ok [.Notification 0 (.Countdown 5)]) :=
  ⟨rfl, rfl⟩

/-- Claim C6, amended: `process_action (Countdown r)` in EVERY phase
(including `Ended`) returns `Ok`, leaves the state unchanged, and emits
exactly one `Notification` carrying `Countdown r` per player and no other
effects. -/
theorem C6_countdown_amended (s : GameState) (r : ℕ) (deltas : PlayerId → ℤ) :
    s.process_action (.Countdown r) deltas =
      (s, .ok (s.players.map fun e => .Notification e.1 (.Countdown r))) :=
  rfl

/-! ### Claim C8 — join-then-leave round trip on the queue -/

/-- Claim C8, counterexample: if the player is already queued, `PlayerJoin`
is rejected with `AlreadyQueued` (no change) but the following `PlayerLeave`
still removes them, so the queue does not return to its prior sequence. -/
theorem C8_join_leave_counterexample :
    queue7.handle_command (.PlayerJoin 7) = some (queue7, .AlreadyQueued) ∧
    queue7.handle_command (.PlayerLeave 7) =
      some (⟨[], MatchmakingConfig.default⟩, .Dequeued 7) ∧
    ([] : List PlayerId) ≠ queue7.queue := by
  refine ⟨rfl, rfl, ?_⟩
  decide

/-- Claim C8, amended: for a player NOT already in the queue,
`PlayerJoin(p)` appends `p` and then `PlayerLeave(p)` restores the exact
prior element sequence. -/
theorem C8_join_leave_amended (q : MatchmakingQueue) (pid : PlayerId)
    (h : pid ∉ q.queue) :
    q.handle_command (.PlayerJoin pid) =
      some ({ q with queue := q.queue ++ [pid] }, .Enqueued pid) ∧
    MatchmakingQueue.handle_command { q with queue := q.queue ++ [pid] }
        (.PlayerLeave pid) = some (q, .Dequeued pid) := by
  constructor
  · simp [MatchmakingQueue.handle_command, h]
  · have hfind := findIdx?_append_self q.queue pid h
    simp only [MatchmakingQueue.handle_command, hfind]
    rw [eraseIdx_append_self]

/-- Claim C8, witness: the amended round trip at a concrete queue. -/
theorem C8_join_leave_witness :
    MatchmakingQueue.handle_command
        { MatchmakingQueue.new with queue := MatchmakingQueue.new.queue ++ [7] }
        (.PlayerLeave 7) = some (MatchmakingQueue.new, .Dequeued 7) :=
  (C8_join_leave_amended MatchmakingQueue.new 7 (by decide)).2

/-! ### Claim C9 — TryMatchmake -/

/-- Claim C9, counterexample: `TryMatchmake` always removes exactly two
entries (`vec![remove(0), remove(0)]`), not `players_to_start` of them: with
`players_to_start = 3` and a queue of three it removes and returns only the
first two. -/
theorem C9_matchmake_counterexample :
    queue3cfg3.config.players_to_start = 3 ∧
    queue3cfg3.queue.length = 3 ∧
    queue3cfg3.handle_command .TryMatchmake =
      some (⟨[3], ⟨3⟩⟩, .Matched [1, 2]) ∧
    MatchmakingOutcome.Matched [1, 2] ≠ .Matched [1, 2, 3] := by
  refine ⟨rfl, rfl, rfl, ?_⟩
  decide

/-- Claim C9, amended: in the default (and only publicly constructible)
configuration `players_to_start = 2`, `TryMatchmake` removes the first two
entries in queue order and returns `Matched` of exactly those entries when
the queue holds at least two; otherwise it removes nothing and returns
`Matched []`. -/
theorem C9_matchmake_amended (q : MatchmakingQueue)
    (h : q.config.players_to_start = 2) :
    (∀ a b rest, q.queue = a :: b :: rest →
       q.handle_command .TryMatchmake =
         some ({ q with queue := rest }, .Matched [a, b])) ∧
    (q.queue.length < 2 →
       q.handle_command .TryMatchmake = some (q, .Matched [])) := by
  constructor
  · intro a b rest hq
    simp only [MatchmakingQueue.handle_command, h, hq]
    rw [if_pos (by simp)]
  · intro hlen
    simp only [MatchmakingQueue.handle_command, h]
    rw [if_neg (by omega)]

/-- Claim C9, witness: the amended statement at a concrete short queue. -/
theorem C9_matchmake_witness :
    queue7.handle_command .TryMatchmake = some (queue7, .Matched []) :=
  (C9_matchmake_amended queue7 (by decide)).2 (by decide)

/-! ### Claim C2 — errors never mutate the state -/

/-- Claim C2: whenever `process_action` returns `Err`, the state after the
call is exactly the state before it (every handler checks all its guards
before its first mutation).  No effects accompany an error by the shape of
the `Result` type. -/
theorem C2_error_leaves_state_unchanged (s : GameState) (a : GameAction)
    (deltas : PlayerId → ℤ) (e : GameError)
    (h : (s.process_action a deltas).2 = .error e) :
    (s.process_action a deltas).1 = s := by
  cases a with
  | Countdown r => simp [GameState.process_action, GameState.handle_countdown] at h
  | Start =>
      simp only [GameState.process_action, GameState.handle_start] at h ⊢
      split_ifs at h ⊢
      rfl
  | Tick =>
      simp only [GameState.process_action, GameState.handle_price_tick] at h ⊢
      split_ifs at h ⊢ <;> rfl
  | Bid pid v =>
      simp only [GameState.process_action, GameState.handle_bid] at h ⊢
      split_ifs at h ⊢ <;> rfl
  | Ask pid v =>
      simp only [GameState.process_action, GameState.handle_ask] at h ⊢
      split_ifs at h ⊢ <;> rfl
  | CancelBid pid price =>
      simp only [GameState.process_action, GameState.handle_cancel_bid] at h ⊢
      split_ifs at h ⊢
      · rfl
      · cases hl : lookupPlayer s pid with
        | none => rfl
        | some st =>
            simp only [hl] at h
            cases hf : st.open_bids.findIdx? (fun b => b == price) with
            | none => simp [hf]
            | some idx => simp [hf] at h
  | CancelAsk pid price =>
      simp only [GameState.process_action, GameState.handle_cancel_ask] at h ⊢
      split_ifs at h ⊢
      · rfl
      · cases hl : lookupPlayer s pid with
        | none => rfl
        | some st =>
            simp only [hl] at h
            cases hf : st.open_asks.findIdx? (fun a => a == price) with
            | none => simp [hf]
            | some idx => simp [hf] at h
  | End =>
      simp only [GameState.process_action, GameState.handle_game_end] at h ⊢
      split_ifs at h ⊢
      rfl

/-- Claim C2, witness: a `Tick` in the `Pending` phase errors and leaves the
concrete fresh state untouched. -/
theorem C2_error_witness :
    (cex1Game.process_action .Tick zeroDeltas).1 = cex1Game :=
  C2_error_leaves_state_unchanged cex1Game .Tick zeroDeltas
    (.InvalidPhase "PriceTick" .Pending) rfl

/-! ### Claim C10 — bids from a player id absent from the game -/

/-- Mapping every entry of the players association list to itself is the
identity; used when `get_mut` finds no entry. -/
theorem GameState.updatePlayer_eq_self {s : GameState} {pid : PlayerId}
    (h : lookupPlayer s pid = none) (f : PlayerState → PlayerState) :
    s.updatePlayer pid f = s := by
  have hfind : s.players.find? (fun e => e.1 == pid) = none := by
    have := h
    unfold lookupPlayer at this
    exact Option.map_eq_none'.mp this
  have hmem : ∀ e ∈ s.players,
      (if e.1 = pid then (e.1, f e.2) else e) = e := by
    intro e he
    have hne := List.find?_eq_none.mp hfind e he
    simp only [beq_iff_eq] at hne
    simp [hne]
  unfold GameState.updatePlayer
  rw [map_id_of _ _ hmem]

/-- Claim C10: in a `Running` game, a `Bid` from a player id not in the
players map sees `available = 0` (`unwrap_or(0)`), so a positive bid is
rejected with `InsufficientFunds` carrying `available: 0` (never `PlayerNotFound`),
while a non-positive bid is accepted: it mutates no player account (there is
no entry to push onto), adds the `on_bid_placed` force pair to every
player's ticker, and broadcasts `BidPlaced` to every player. -/
theorem C10_bid_unknown_player (s : GameState) (deltas : PlayerId → ℤ)
    (pid : PlayerId) (v : ℤ) (hphase : s.phase = .Running)
    (hnone : lookupPlayer s pid = none) :
    (0 < v → s.process_action (.Bid pid v) deltas =
        (s, .error (.InsufficientFunds 0 v))) ∧
    (v ≤ 0 → s.process_action (.Bid pid v) deltas =
        ({ s with player_tickers := s.player_tickers.map
                    (fun (e : PlayerId × PlayerTicker) =>
                      (e.1, { e.2 with ticker := e.2.ticker.on_bid_placed (v : ℚ) })) },
         .ok (s.players.map fun e => .Notification e.1 (.BidPlaced pid v)))) := by
  have hupd := GameState.updatePlayer_eq_self hnone
    (fun st => { st with open_bids := st.open_bids ++ [v] })
  constructor
  · intro hv
    simp only [GameState.process_action, GameState.handle_bid]
    rw [if_neg (by simp [hphase])]
    simp only [hnone, Option.map_none', Option.getD_none]
    rw [if_pos hv]
  · intro hv
    simp only [GameState.process_action, GameState.handle_bid]
    rw [if_neg (by simp [hphase])]
    simp only [hnone, Option.map_none', Option.getD_none]
    rw [if_neg (by omega)]
    rw [hupd]
    rfl

/-- Claim C10, witness: the rejection branch at a concrete running game
whose players map does not contain the bidder. -/
theorem C10_bid_unknown_player_witness :
    running1Game.process_action (.Bid 2 5) zeroDeltas =
      (running1Game, .error (.InsufficientFunds 0 5)) :=
  (C10_bid_unknown_player running1Game zeroDeltas 2 5 (by decide) (by decide)).1
    (by decide)

/-! ### Claim C5 — force pruning after a tick -/

/-- Claim C5, counterexample: `Ticker::tick` retains every force of strictly
positive strength and ignores the pruning boolean returned by `Decay::tick`,
so an exponential force whose strength has decayed to `0.5^7 ≤ 0.01` (but is
still positive) survives the tick, contrary to the claimed pruning at 0.01. -/
theorem C5_exponential_prune_counterexample :
    (⟨0, 0, Decay.tick (.Exponential 1 6)⟩ : MarketForce) ∈ tickerExp.tick.forces ∧
    Decay.strength (Decay.tick (.Exponential 1 6)) ≤ 1/100 ∧
    0 < Decay.strength (Decay.tick (.Exponential 1 6)) := by
  have hpos : (0:ℝ) < Decay.strength (Decay.tick (.Exponential 1 6)) := by
    simp only [Decay.tick, Decay.strength]
    rw [if_neg (by norm_num)]
    exact Real.rpow_pos_of_pos (by norm_num) _
  refine ⟨?_, ?_, hpos⟩
  · simp only [Ticker.tick, tickerExp, List.map, List.filter, decide_eq_true hpos]
    exact List.mem_singleton.mpr rfl
  · simp only [Decay.tick, Decay.strength]
    rw [if_neg (by norm_num)]
    have h7 : (((6:ℚ) + 1 : ℚ) : ℝ) / ((1:ℚ) : ℝ) = ((7:ℕ) : ℝ) := by
      push_cast
      norm_num
    have h8 : Real.rpow (1/2) ((7:ℕ) : ℝ) = (1/2 : ℝ) ^ (7:ℕ) :=
      Real.rpow_natCast _ 7
    rw [h7, h8]
    norm_num

/-- Claim C5, amended: after every `Ticker::tick`, the forces list contains
no force whose decay strength is zero (indeed none that is not strictly
positive); exponential forces of positive strength `≤ 0.01` are, however,
retained. -/
theorem C5_no_zero_strength_amended (t : Ticker) (f : MarketForce)
    (hf : f ∈ t.tick.forces) : 0 < f.decay.strength := by
  unfold Ticker.tick at hf
  exact of_decide_eq_true (List.mem_filter.mp hf).2

/-- Claim C5, witness: the amended statement at a concrete ticker holding a
non-decaying force. -/
theorem C5_no_zero_strength_witness :
    (⟨0, 0, Decay.tick .Instant⟩ : MarketForce) ∈ tickerInstant.tick.forces ∧
    0 < Decay.strength (MarketForce.decay ⟨0, 0, Decay.tick .Instant⟩) := by
  have hpos : (0:ℝ) < Decay.strength (Decay.tick .Instant) := by
    simp [Decay.tick, Decay.strength]
  have hmem : (⟨0, 0, Decay.tick .Instant⟩ : MarketForce) ∈ tickerInstant.tick.forces := by
    simp only [Ticker.tick, tickerInstant, List.map, List.filter, decide_eq_true hpos]
    exact List.mem_singleton.mpr rfl
  exact ⟨hmem, C5_no_zero_strength_amended tickerInstant _ hmem⟩

/-! ### Claim C7 — lobby countdown to game creation -/

/-- One `CountdownTick` while more than one second remains: decrement,
broadcast, reschedule. -/
theorem countdown_tick_gt (s : LobbyState) (r : ℕ)
    (h : s.phase = .CountingDown r) (h1 : 1 < r) :
    s.process_action .CountdownTick =
      ({ s with phase := .CountingDown (r - 1) },
       [.Broadcast (.CountdownTick (r - 1)), .ScheduleCountdownTick 1]) := by
  simp only [LobbyState.process_action, LobbyState.handle_countdown_tick, h]
  rw [if_pos h1]

/-- The final `CountdownTick` (one second left): emit exactly one
`CreateGame` with the current arrived players, change nothing else. -/
theorem countdown_tick_one (s : LobbyState) (h : s.phase = .CountingDown 1) :
    s.process_action .CountdownTick = (s, [.CreateGame s.id s.arrived_players]) := by
  simp only [LobbyState.process_action, LobbyState.handle_countdown_tick, h]
  norm_num

/-- Claim C7: from a lobby in `CountingDown 10` with every arrived player
ready, each of the first nine `CountdownTick`s only decrements the phase
counter and emits `[Broadcast (CountdownTick (r-1)), ScheduleCountdownTick 1]`
(so no game is created), and the tenth tick leaves the state unchanged and
emits exactly one `CreateGame` with the lobby id and arrived players — and
no `ScheduleCountdownTick`. -/
theorem C7_lobby_countdown (s : LobbyState)
    (hphase : s.phase = .CountingDown 10)
    (_hready : ∀ p ∈ s.arrived_players, p ∈ s.ready_players) :
    (∀ k, k ≤ 9 → applyTicks s k = { s with phase := .CountingDown (10 - k) }) ∧
    (∀ k, k < 9 →
      ((applyTicks s k).process_action .CountdownTick).2 =
        [.Broadcast (.CountdownTick (10 - (k + 1))), .ScheduleCountdownTick 1]) ∧
    (applyTicks s 9).process_action .CountdownTick =
      (applyTicks s 9, [.CreateGame s.id s.arrived_players]) := by
  have hA : ∀ k, k ≤ 9 → applyTicks s k = { s with phase := .CountingDown (10 - k) } := by
    intro k
    induction k with
    | zero =>
        intro _
        rw [applyTicks]
        cases s
        cases hphase
        rfl
    | succ k ih =>
        intro hk9
        rw [applyTicks, ih (by omega),
          countdown_tick_gt _ (10 - k) rfl (by omega)]
        rw [show 10 - k - 1 = 10 - (k + 1) by omega]
  refine ⟨hA, ?_, ?_⟩
  · intro k hk
    rw [hA k (by omega), countdown_tick_gt _ (10 - k) rfl (by omega)]
    rw [show 10 - k - 1 = 10 - (k + 1) by omega]
  · rw [hA 9 (by norm_num)]
    rw [countdown_tick_one _ (by norm_num)]

/-- Claim C7, witness: the tenth tick at a concrete one-player lobby. -/
theorem C7_lobby_countdown_witness :
    (applyTicks lobbyCounting 9).process_action .CountdownTick =
      (applyTicks lobbyCounting 9,
       [.CreateGame lobbyCounting.id lobbyCounting.arrived_players]) :=
  (C7_lobby_countdown lobbyCounting rfl (by decide)).2.2

/-! ### Claim C3 — the final tick -/

theorem resolve_bids_fst_phase (s : GameState) :
    (s.resolve_bids).1.phase = s.phase := rfl

theorem resolve_bids_fst_ticks (s : GameState) :
    (s.resolve_bids).1.ticks_remaining = s.ticks_remaining := rfl

theorem resolve_asks_fst_phase (s : GameState) :
    (s.resolve_asks).1.phase = s.phase := rfl

theorem resolve_asks_fst_ticks (s : GameState) :
    (s.resolve_asks).1.ticks_remaining = s.ticks_remaining := rfl

/-- A flat-mapped list of notifications contains no delayed action. -/
theorem filter_isDelayed_flatMap {α : Type} (l : List α) (f : α → List GameEffect)
    (h : ∀ a ∈ l, ∀ e ∈ f a, isDelayedEff e = false) :
    (l.flatMap f).filter isDelayedEff = [] := by
  rw [List.filter_eq_nil_iff]
  intro e he
  obtain ⟨a, ha, hea⟩ := List.mem_flatMap.mp he
  simp [h a ha e hea]

/-- Decomposition of a successful `Tick`: the reducer returns `Ok`, keeps the
phase, decrements `ticks_remaining`, and the only delayed action among the
effects is one `DelayedAction` carrying the tick interval and `End` or `Tick`
according to whether the decremented counter reached zero. -/
theorem tick_ok_parts (s : GameState) (deltas : PlayerId → ℤ)
    (hphase : s.phase = .Running) (h0 : s.ticks_remaining ≠ 0) :
    ∃ s' L, s.process_action .Tick deltas = (s', .ok L) ∧
      s'.phase = s.phase ∧ s'.ticks_remaining = s.ticks_remaining - 1 ∧
      s'.config = s.config ∧
      L.filter isDelayedEff = [.DelayedAction s.config.tick_interval
        (if s.ticks_remaining - 1 = 0 then GameAction.End else .Tick)] := by
  simp only [GameState.process_action, GameState.handle_price_tick]
  rw [if_neg (by simp [hphase]), if_neg h0]
  refine ⟨_, _, rfl, rfl, rfl, rfl, ?_⟩
  rw [List.filter_append, List.filter_append, List.filter_append]
  rw [filter_isDelayed_flatMap _ _ ?hpn, filter_isDelayed_flatMap _ _ ?hbn,
    filter_isDelayed_flatMap _ _ ?han]
  case hpn =>
    intro a _ e he
    obtain ⟨x, _, rfl⟩ := List.mem_map.mp he
    rfl
  case hbn =>
    intro a _ e he
    obtain ⟨x, _, rfl⟩ := List.mem_map.mp he
    rfl
  case han =>
    intro a _ e he
    obtain ⟨x, _, rfl⟩ := List.mem_map.mp he
    rfl
  simp only [List.nil_append, List.filter_cons, List.filter_nil]
  rfl

/-- Claim C3: on a `Running` game with `ticks_remaining = 1`, `Tick`
succeeds, its effects contain exactly one `DelayedAction` — carrying
`tick_interval` and `End` — and no delayed `Tick`; the resulting state still
stores phase `Running` with `ticks_remaining = 0`, and a subsequent `Tick`
is not silently ignored: it returns `InvalidPhase` with action `PriceTick`
and phase `Ended`, leaving the state unchanged. -/
theorem C3_final_tick_schedules_end (s : GameState) (deltas deltas' : PlayerId → ℤ)
    (hphase : s.phase = .Running) (hticks : s.ticks_remaining = 1) :
    isOkE (s.process_action .Tick deltas).2 = true ∧
    (okEffects (s.process_action .Tick deltas).2).filter isDelayedEff =
      [.DelayedAction s.config.tick_interval .End] ∧
    (s.process_action .Tick deltas).1.phase = .Running ∧
    (s.process_action .Tick deltas).1.ticks_remaining = 0 ∧
    (s.process_action .Tick deltas).1.process_action .Tick deltas' =
      ((s.process_action .Tick deltas).1, .error (.InvalidPhase "PriceTick" .Ended)) := by
  obtain ⟨s', L, heq, hph, htk, hcf, hfil⟩ :=
    tick_ok_parts s deltas hphase (by omega)
  rw [heq]
  refine ⟨rfl, ?_, ?_, ?_, ?_⟩
  · simp only [okEffects]
    rw [hfil, hticks]
    norm_num
  · rw [hph, hphase]
  · rw [htk, hticks]
  · simp only [GameState.process_action, GameState.handle_price_tick]
    rw [if_neg (by simp [hph, hphase]), if_pos (by rw [htk, hticks])]

/-- Claim C3, witness: a concrete running one-player game with one tick
remaining. -/
theorem C3_final_tick_witness :
    isOkE (({ GameState.new [0] testConfig with
                phase := .Running, ticks_remaining := 1 } :
        GameState).process_action .Tick zeroDeltas).2 = true :=
  (C3_final_tick_schedules_end
    { GameState.new [0] testConfig with phase := .Running, ticks_remaining := 1 }
    zeroDeltas zeroDeltas (by decide) (by decide)).1

/-! ### Claim C1 — machinery: single removals -/

theorem sum_eraseIdx_add (l : List ℤ) (i : ℕ) (hi : i < l.length) :
    (l.eraseIdx i).sum + l.getD i 0 = l.sum := by
  induction l generalizing i with
  | nil => simp at hi
  | cons a t ih =>
      cases i with
      | zero => simp [List.eraseIdx, add_comm]
      | succ i =>
          simp only [List.eraseIdx_cons_succ, List.sum_cons, List.getD_cons_succ]
          have := ih i (by simpa using hi)
          omega

theorem length_eraseIdx_of_lt (l : List ℤ) (i : ℕ) (hi : i < l.length) :
    (l.eraseIdx i).length = l.length - 1 := by
  rw [List.length_eraseIdx]
  simp [hi]

theorem getD_eraseIdx_of_lt (l : List ℤ) (i j : ℕ) (h : j < i) :
    (l.eraseIdx i).getD j 0 = l.getD j 0 := by
  rw [List.getD_eq_getElem?_getD, List.getD_eq_getElem?_getD,
    List.getElem?_eraseIdx_of_lt l i j h]

/-! ### Claim C1 — machinery: the collected fill indices -/

/-- Every index collected by `filledBidIdx` is in bounds and points at a bid
of at least the price. -/
theorem filledBidIdx_mem (p : ℤ) (bids : List ℤ) (i : ℕ)
    (h : i ∈ filledBidIdx p bids) :
    i < bids.length ∧ p ≤ bids.getD i 0 := by
  unfold filledBidIdx at h
  obtain ⟨e, he, rfl⟩ := List.mem_map.mp h
  have hm := List.mem_filter.mp he
  have hg := List.mem_enum_iff_getElem?.mp hm.1
  obtain ⟨hlt, hget⟩ := List.getElem?_eq_some_iff.mp hg
  refine ⟨hlt, ?_⟩
  rw [List.getD_eq_getElem?_getD, hg, Option.getD_some]
  exact of_decide_eq_true hm.2

/-- The collected fill indices are strictly increasing. -/
theorem filledBidIdx_sorted (p : ℤ) (bids : List ℤ) :
    (filledBidIdx p bids).Pairwise (· < ·) := by
  unfold filledBidIdx
  have hsub : ((bids.enum.filter fun e => decide (p ≤ e.2)).map (·.1)).Sublist
      (bids.enum.map (·.1)) := (List.filter_sublist _).map _
  have hr : (bids.enum.map (·.1)) = List.range bids.length := List.enum_map_fst bids
  exact List.Pairwise.sublist hsub (hr ▸ List.pairwise_lt_range _)

/-- Processing a strictly descending list of valid fill indices never
decreases `available_cash`, and the surviving bids all come from the
original book. -/
theorem fillBids_fold (p : ℤ) (pid : PlayerId) :
    ∀ (idxs : List ℕ) (st : PlayerState) (res : List (PlayerId × ℤ)),
      (∀ i ∈ idxs, i < st.open_bids.length ∧ p ≤ st.open_bids.getD i 0) →
      idxs.Pairwise (· > ·) →
      st.available_cash ≤ (idxs.foldl (fillBidStep p pid) (st, res)).1.available_cash ∧
      ∀ b ∈ (idxs.foldl (fillBidStep p pid) (st, res)).1.open_bids, b ∈ st.open_bids := by
  intro idxs
  induction idxs with
  | nil => exact fun st res _ _ => ⟨le_refl _, fun b hb => hb⟩
  | cons i rest ih =>
      intro st res hvalid hpar
      have hi := hvalid i (List.mem_cons_self i rest)
      have hfold : (i :: rest).foldl (fillBidStep p pid) (st, res) =
          rest.foldl (fillBidStep p pid)
            ({ st with open_bids := st.open_bids.eraseIdx i,
                       shares := st.shares ++ [p],
                       cash := st.cash - p },
             res ++ [(pid, st.open_bids.getD i 0)]) := rfl
      have hvalid' : ∀ j ∈ rest,
          j < (st.open_bids.eraseIdx i).length ∧
          p ≤ (st.open_bids.eraseIdx i).getD j 0 := by
        intro j hj
        have hji : i > j := (List.pairwise_cons.mp hpar).1 j hj
        obtain ⟨hjl, hjp⟩ := hvalid j (List.mem_cons_of_mem _ hj)
        have hlen := length_eraseIdx_of_lt st.open_bids i hi.1
        refine ⟨by omega, ?_⟩
        rw [getD_eraseIdx_of_lt _ _ _ hji]
        exact hjp
      have hpar' : rest.Pairwise (· > ·) := (List.pairwise_cons.mp hpar).2
      obtain ⟨hle, hsub⟩ := ih
        { st with open_bids := st.open_bids.eraseIdx i,
                  shares := st.shares ++ [p], cash := st.cash - p }
        (res ++ [(pid, st.open_bids.getD i 0)]) hvalid' hpar'
      rw [hfold]
      constructor
      · refine le_trans ?_ hle
        have hsum := sum_eraseIdx_add st.open_bids i hi.1
        have hp := hi.2
        show st.cash - st.open_bids.sum ≤
          st.cash - p - (st.open_bids.eraseIdx i).sum
        omega
      · intro b hb
        exact (List.eraseIdx_sublist st.open_bids i).subset (hsub b hb)

/-- The per-player bid fill never decreases `available_cash` and only
removes bids. -/
theorem fillPlayerBids_inv (p : ℤ) (pid : PlayerId) (st : PlayerState) :
    st.available_cash ≤ (fillPlayerBids p pid st).1.available_cash ∧
    ∀ b ∈ (fillPlayerBids p pid st).1.open_bids, b ∈ st.open_bids := by
  unfold fillPlayerBids
  apply fillBids_fold
  · intro i hi
    exact filledBidIdx_mem p st.open_bids i (List.mem_reverse.mp hi)
  · rw [List.pairwise_reverse]
    exact filledBidIdx_sorted p st.open_bids

/-- Processing ask fills at a nonnegative price never decreases
`available_cash` and leaves the bid book untouched. -/
theorem fillAsks_fold (p : ℤ) (pid : PlayerId) (hp : 0 ≤ p) :
    ∀ (idxs : List ℕ) (st : PlayerState) (res : List (PlayerId × ℤ)),
      st.available_cash ≤ (idxs.foldl (fillAskStep p pid) (st, res)).1.available_cash ∧
      (idxs.foldl (fillAskStep p pid) (st, res)).1.open_bids = st.open_bids := by
  intro idxs
  induction idxs with
  | nil => exact fun st res => ⟨le_refl _, rfl⟩
  | cons i rest ih =>
      intro st res
      obtain ⟨hle, hbids⟩ := ih
        { st with open_asks := st.open_asks.eraseIdx i,
                  shares := if st.shares.isEmpty then st.shares else st.shares.dropLast,
                  cash := st.cash + p }
        (res ++ [(pid, st.open_asks.getD i 0)])
      refine ⟨le_trans ?_ hle, hbids⟩
      show st.cash - st.open_bids.sum ≤ st.cash + p - st.open_bids.sum
      omega

/-- The per-player ask fill at a nonnegative price. -/
theorem fillPlayerAsks_inv (p : ℤ) (pid : PlayerId) (st : PlayerState) (hp : 0 ≤ p) :
    st.available_cash ≤ (fillPlayerAsks p pid st).1.available_cash ∧
    (fillPlayerAsks p pid st).1.open_bids = st.open_bids :=
  fillAsks_fold p pid hp _ st []

/-! ### Claim C1 — machinery: resolution and prices -/

/-- Mapping each association-list entry to a new value keeps the keys. -/
theorem keys_map_pair {β γ : Type} (l : List (PlayerId × β))
    (g : PlayerId × β → γ) :
    (l.map fun e => (e.1, g e)).map (·.1) = l.map (·.1) := by
  rw [List.map_map]
  rfl

theorem resolve_bids_inv (s : GameState) (h : cashInv s) :
    cashInv (s.resolve_bids).1 := by
  obtain ⟨hent, hnd⟩ := h
  constructor
  · intro e he
    have he' : e ∈ s.players.map fun e =>
        (e.1, (fillPlayerBids (priceOf s.player_tickers e.1) e.1 e.2).1) := he
    obtain ⟨e₀, he₀, rfl⟩ := List.mem_map.mp he'
    obtain ⟨h1, h2⟩ := hent e₀ he₀
    obtain ⟨hle, hsub⟩ := fillPlayerBids_inv (priceOf s.player_tickers e₀.1) e₀.1 e₀.2
    exact ⟨le_trans h1 hle, fun b hb => h2 b (hsub b hb)⟩
  · have hk : (s.resolve_bids).1.players.map (·.1) = s.players.map (·.1) :=
      keys_map_pair s.players _
    rw [hk]
    exact hnd

theorem resolve_asks_inv (s : GameState)
    (hpr : ∀ pid, 0 ≤ priceOf s.player_tickers pid) (h : cashInv s) :
    cashInv (s.resolve_asks).1 := by
  obtain ⟨hent, hnd⟩ := h
  constructor
  · intro e he
    have he' : e ∈ s.players.map fun e =>
        (e.1, (fillPlayerAsks (priceOf s.player_tickers e.1) e.1 e.2).1) := he
    obtain ⟨e₀, he₀, rfl⟩ := List.mem_map.mp he'
    obtain ⟨h1, h2⟩ := hent e₀ he₀
    obtain ⟨hle, hbids⟩ :=
      fillPlayerAsks_inv (priceOf s.player_tickers e₀.1) e₀.1 e₀.2 (hpr e₀.1)
    refine ⟨le_trans h1 hle, ?_⟩
    intro b hb
    rw [hbids] at hb
    exact h2 b hb
  · have hk : (s.resolve_asks).1.players.map (·.1) = s.players.map (·.1) :=
      keys_map_pair s.players _
    rw [hk]
    exact hnd

/-- The price snapshot of a ticker map whose entries all carry nonnegative
prices is nonnegative (the `unwrap_or(0)` default included). -/
theorem priceOf_nonneg (tk : List (PlayerId × PlayerTicker))
    (h : ∀ e ∈ tk, 0 ≤ e.2.current_price) (pid : PlayerId) :
    0 ≤ priceOf tk pid := by
  unfold priceOf
  cases hf : tk.find? (fun e => e.1 == pid) with
  | none => simp
  | some e =>
      simp only [Option.map_some', Option.getD_some]
      exact h e (List.mem_of_find?_eq_some hf)

/-- The market-event hook loops only replace each entry's inner `Ticker`;
current prices are untouched. -/
theorem foldHook_price_nonneg (F : PlayerId × ℤ → PlayerId × PlayerTicker → Ticker) :
    ∀ (rs : List (PlayerId × ℤ)) (tk : List (PlayerId × PlayerTicker)),
      (∀ e ∈ tk, 0 ≤ e.2.current_price) →
      ∀ e ∈ rs.foldl
          (fun tk pr => tk.map fun t => (t.1, { t.2 with ticker := F pr t })) tk,
        0 ≤ e.2.current_price := by
  intro rs
  induction rs with
  | nil => exact fun tk h e he => h e he
  | cons r rest ih =>
      intro tk h e he
      refine ih _ ?_ e he
      intro e' he'
      obtain ⟨t, ht, rfl⟩ := List.mem_map.mp he'
      exact h t ht

/-! ### Claim C1 — machinery: the reducer preserves the invariant -/

/-- Under unique keys, an entry of the players map is what lookup finds. -/
theorem find?_of_mem_nodup {β : Type} :
    ∀ (l : List (PlayerId × β)), (l.map (·.1)).Nodup →
      ∀ (pid : PlayerId) (st : β), (pid, st) ∈ l →
        l.find? (fun e => e.1 == pid) = some (pid, st) := by
  intro l
  induction l with
  | nil => intro _ pid st h; simp at h
  | cons a t ih =>
      intro hnd pid st h
      rw [List.find?_cons]
      by_cases ha : a.1 = pid
      · have haeq : a = (pid, st) := by
          rcases List.mem_cons.mp h with h1 | h2
          · exact h1.symm
          · exfalso
            have hmem : pid ∈ t.map (·.1) := List.mem_map.mpr ⟨(pid, st), h2, rfl⟩
            have hhead : a.1 ∉ t.map (·.1) := (List.nodup_cons.mp hnd).1
            rw [ha] at hhead
            exact hhead hmem
        simp only [ha, beq_self_eq_true]
        exact congrArg some haeq
      · have hcond : (a.1 == pid) = false := by simp [ha]
        rw [hcond]
        have ht : (pid, st) ∈ t := by
          rcases List.mem_cons.mp h with h1 | h2
          · exact absurd (congrArg Prod.fst h1.symm) ha
          · exact h2
        exact ih (List.nodup_cons.mp hnd).2 pid st ht

theorem lookupPlayer_of_mem {s : GameState} (hnd : (s.players.map (·.1)).Nodup)
    {pid : PlayerId} {st : PlayerState} (h : (pid, st) ∈ s.players) :
    lookupPlayer s pid = some st := by
  unfold lookupPlayer
  rw [find?_of_mem_nodup s.players hnd pid st h]
  rfl

/-- Keys survive `updatePlayer`. -/
theorem keys_updatePlayer (s : GameState) (pid : PlayerId)
    (f : PlayerState → PlayerState) :
    (s.updatePlayer pid f).players.map (·.1) = s.players.map (·.1) := by
  unfold GameState.updatePlayer
  rw [List.map_map]
  refine List.map_congr_left ?_
  intro e _
  by_cases hk : e.1 = pid
  · simp [hk]
  · simp [hk]

theorem countdown_preserves_inv (s : GameState) (r : ℕ) (h : cashInv s) :
    cashInv (s.handle_countdown r).1 := h

theorem start_preserves_inv (s : GameState) (h : cashInv s) :
    cashInv (s.handle_start).1 := by
  simp only [GameState.handle_start]
  split_ifs <;> exact h

theorem end_preserves_inv (s : GameState) (h : cashInv s) :
    cashInv (s.handle_game_end).1 := by
  simp only [GameState.handle_game_end]
  split_ifs <;> exact h

/-- The tickers after `resolve_bids` are the `on_bid_filled` hook fold over
the input tickers. -/
theorem resolve_bids_fst_tickers (s : GameState) :
    (s.resolve_bids).1.player_tickers =
      (s.resolve_bids).2.foldl
        (fun tk pr => tk.map fun t =>
          (t.1, { t.2 with
            ticker := t.2.ticker.on_bid_filled ((priceOf s.player_tickers pr.1 : ℤ) : ℚ) }))
        s.player_tickers := rfl

theorem tick_preserves_inv (s : GameState) (deltas : PlayerId → ℤ)
    (h : cashInv s) : cashInv (s.handle_price_tick deltas).1 := by
  by_cases h1 : s.phase ≠ GamePhase.Running
  · simp only [GameState.handle_price_tick]
    rw [if_pos h1]
    exact h
  · by_cases h2 : s.ticks_remaining = 0
    · simp only [GameState.handle_price_tick]
      rw [if_neg h1, if_pos h2]
      exact h
    · simp only [GameState.handle_price_tick]
      rw [if_neg h1, if_neg h2]
      refine resolve_asks_inv _ ?_ (resolve_bids_inv _ h)
      intro pid
      apply priceOf_nonneg
      rw [resolve_bids_fst_tickers]
      refine foldHook_price_nonneg _ _ _ ?_
      intro e he
      obtain ⟨e₀, _, rfl⟩ := List.mem_map.mp he
      exact le_max_left 0 _

theorem bid_preserves_inv (s : GameState) (pid : PlayerId) (v : ℤ)
    (hv : 0 ≤ v) (h : cashInv s) : cashInv (s.handle_bid pid v).1 := by
  obtain ⟨hent, hnd⟩ := h
  simp only [GameState.handle_bid]
  split_ifs with h1 h2
  · exact ⟨hent, hnd⟩
  · exact ⟨hent, hnd⟩
  · constructor
    · intro e he
      have he' : e ∈ s.players.map fun e =>
          if e.1 = pid then (e.1, { e.2 with open_bids := e.2.open_bids ++ [v] }) else e := he
      obtain ⟨e₀, he₀, heq⟩ := List.mem_map.mp he'
      by_cases hk : e₀.1 = pid
      · rw [if_pos hk] at heq
        subst heq
        obtain ⟨h01, h02⟩ := hent e₀ he₀
        have hlk : lookupPlayer s pid = some e₀.2 := by
          refine lookupPlayer_of_mem hnd ?_
          rw [← hk]
          exact he₀
        rw [hlk] at h2
        simp only [Option.map_some', Option.getD_some, not_lt] at h2
        constructor
        · show 0 ≤ e₀.2.cash - (e₀.2.open_bids ++ [v]).sum
          have hs : (e₀.2.open_bids ++ [v]).sum = e₀.2.open_bids.sum + v := by
            rw [List.sum_append]
            simp
          have h01' : 0 ≤ e₀.2.cash - e₀.2.open_bids.sum := h01
          have h2' : v ≤ e₀.2.cash - e₀.2.open_bids.sum := h2
          omega
        · intro b hb
          rcases List.mem_append.mp hb with hb1 | hb2
          · exact h02 b hb1
          · rw [List.mem_singleton.mp hb2]
            exact hv
      · rw [if_neg hk] at heq
        subst heq
        exact hent e₀ he₀
    · have hk2 : (((s.updatePlayer pid fun st =>
          { st with open_bids := st.open_bids ++ [v] }).mapTickers
          fun pt => { pt with ticker := pt.ticker.on_bid_placed (v : ℚ) }).players.map
            (·.1)).Nodup := by
        have hmt : ((s.updatePlayer pid fun st =>
            { st with open_bids := st.open_bids ++ [v] }).mapTickers
            fun pt => { pt with ticker := pt.ticker.on_bid_placed (v : ℚ) }).players =
            (s.updatePlayer pid fun st =>
              { st with open_bids := st.open_bids ++ [v] }).players := rfl
        rw [hmt, keys_updatePlayer]
        exact hnd
      exact hk2

theorem ask_preserves_inv (s : GameState) (pid : PlayerId) (v : ℤ)
    (h : cashInv s) : cashInv (s.handle_ask pid v).1 := by
  obtain ⟨hent, hnd⟩ := h
  simp only [GameState.handle_ask]
  split_ifs with h1 h2
  · exact ⟨hent, hnd⟩
  · exact ⟨hent, hnd⟩
  · constructor
    · intro e he
      have he' : e ∈ s.players.map fun e =>
          if e.1 = pid then (e.1, { e.2 with open_asks := e.2.open_asks ++ [v] }) else e := he
      obtain ⟨e₀, he₀, heq⟩ := List.mem_map.mp he'
      by_cases hk : e₀.1 = pid
      · rw [if_pos hk] at heq
        subst heq
        exact hent e₀ he₀
      · rw [if_neg hk] at heq
        subst heq
        exact hent e₀ he₀
    · have hk2 : (((s.updatePlayer pid fun st =>
          { st with open_asks := st.open_asks ++ [v] }).mapTickers
          fun pt => { pt with ticker := pt.ticker.on_ask_placed (v : ℚ) }).players.map
            (·.1)).Nodup := by
        have hmt : ((s.updatePlayer pid fun st =>
            { st with open_asks := st.open_asks ++ [v] }).mapTickers
            fun pt => { pt with ticker := pt.ticker.on_ask_placed (v : ℚ) }).players =
            (s.updatePlayer pid fun st =>
              { st with open_asks := st.open_asks ++ [v] }).players := rfl
        rw [hmt, keys_updatePlayer]
        exact hnd
      exact hk2

/-- Facts delivered by a successful `findIdx?` on the bid book: erasing the
found index removes exactly one occurrence of the sought price, which is an
element of the book. -/
theorem findIdx_erase_facts :
    ∀ (l : List ℤ) (x : ℤ) (i : ℕ),
      List.findIdx? (fun b => b == x) l = some i →
      (l.eraseIdx i).sum + x = l.sum ∧ x ∈ l := by
  intro l
  induction l with
  | nil => intro x i h; simp [List.findIdx?] at h
  | cons a t ih =>
      intro x i h
      rw [List.findIdx?_cons] at h
      by_cases ha : (a == x) = true
      · rw [if_pos ha] at h
        have hi : i = 0 := (Option.some.inj h).symm
        subst hi
        have hax : a = x := by simpa using ha
        subst hax
        exact ⟨by simp [List.eraseIdx, add_comm], List.mem_cons_self a t⟩
      · rw [if_neg ha, List.findIdx?_succ] at h
        obtain ⟨j, hj, rfl⟩ := Option.map_eq_some'.mp h
        obtain ⟨hsum, hmem⟩ := ih x j hj
        refine ⟨?_, List.mem_cons_of_mem a hmem⟩
        simp only [List.eraseIdx_cons_succ, List.sum_cons]
        omega

theorem cancel_bid_preserves_inv (s : GameState) (pid : PlayerId) (price : ℤ)
    (h : cashInv s) : cashInv (s.handle_cancel_bid pid price).1 := by
  obtain ⟨hent, hnd⟩ := h
  simp only [GameState.handle_cancel_bid]
  split_ifs with h1
  · exact ⟨hent, hnd⟩
  · cases hl : lookupPlayer s pid with
    | none => exact ⟨hent, hnd⟩
    | some st0 =>
        cases hf : st0.open_bids.findIdx? (fun b => b == price) with
        | none =>
            simp only [hf]
            exact ⟨hent, hnd⟩
        | some idx =>
            simp only [hf]
            obtain ⟨hsum, hmem⟩ := findIdx_erase_facts st0.open_bids price idx hf
            constructor
            · intro e he
              have he' : e ∈ s.players.map fun e =>
                  if e.1 = pid then
                    (e.1, { e.2 with open_bids := e.2.open_bids.eraseIdx idx })
                  else e := he
              obtain ⟨e₀, he₀, heq⟩ := List.mem_map.mp he'
              by_cases hk : e₀.1 = pid
              · rw [if_pos hk] at heq
                subst heq
                obtain ⟨h01, h02⟩ := hent e₀ he₀
                have hlk : lookupPlayer s pid = some e₀.2 := by
                  refine lookupPlayer_of_mem hnd ?_
                  rw [← hk]
                  exact he₀
                have he2 : e₀.2 = st0 := by
                  rw [hlk] at hl
                  exact Option.some.inj hl
                subst he2
                have hpnn : 0 ≤ price := h02 price hmem
                constructor
                · show 0 ≤ e₀.2.cash - (e₀.2.open_bids.eraseIdx idx).sum
                  have h01' : 0 ≤ e₀.2.cash - e₀.2.open_bids.sum := h01
                  omega
                · intro b hb
                  exact h02 b ((List.eraseIdx_sublist _ idx).subset hb)
              · rw [if_neg hk] at heq
                subst heq
                exact hent e₀ he₀
            · have hk : ((s.updatePlayer pid fun st =>
                  { st with open_bids := st.open_bids.eraseIdx idx }).players.map (·.1)).Nodup := by
                rw [keys_updatePlayer]
                exact hnd
              exact hk

theorem cancel_ask_preserves_inv (s : GameState) (pid : PlayerId) (price : ℤ)
    (h : cashInv s) : cashInv (s.handle_cancel_ask pid price).1 := by
  obtain ⟨hent, hnd⟩ := h
  simp only [GameState.handle_cancel_ask]
  split_ifs with h1
  · exact ⟨hent, hnd⟩
  · cases hl : lookupPlayer s pid with
    | none => exact ⟨hent, hnd⟩
    | some st0 =>
        cases hf : st0.open_asks.findIdx? (fun a => a == price) with
        | none =>
            simp only [hf]
            exact ⟨hent, hnd⟩
        | some idx =>
            simp only [hf]
            constructor
            · intro e he
              have he' : e ∈ s.players.map fun e =>
                  if e.1 = pid then
                    (e.1, { e.2 with open_asks := e.2.open_asks.eraseIdx idx })
                  else e := he
              obtain ⟨e₀, he₀, heq⟩ := List.mem_map.mp he'
              by_cases hk : e₀.1 = pid
              · rw [if_pos hk] at heq
                subst heq
                exact hent e₀ he₀
              · rw [if_neg hk] at heq
                subst heq
                exact hent e₀ he₀
            · have hk : ((s.updatePlayer pid fun st =>
                  { st with open_asks := st.open_asks.eraseIdx idx }).players.map (·.1)).Nodup := by
                rw [keys_updatePlayer]
                exact hnd
              exact hk

/-! ### Claim C1 — the invariant along reachable states -/

theorem cashInv_new (players : List PlayerId) (config : GameConfig)
    (h0 : 0 ≤ config.starting_balance) : cashInv (GameState.new players config) := by
  constructor
  · intro e he
    have he' : e ∈ players.dedup.map
        (fun pid => (pid, PlayerState.new config.starting_balance)) := he
    obtain ⟨pid, _, rfl⟩ := List.mem_map.mp he'
    constructor
    · show 0 ≤ config.starting_balance - ([] : List ℤ).sum
      simpa using h0
    · intro b hb
      simp [PlayerState.new] at hb
  · have hk : (GameState.new players config).players.map (·.1) = players.dedup := by
      show (players.dedup.map fun pid =>
        (pid, PlayerState.new config.starting_balance)).map (·.1) = players.dedup
      rw [List.map_map]
      exact List.map_id _
    rw [hk]
    exact List.nodup_dedup _

/-- The invariant holds in every state reachable with nonnegative starting
balance and nonnegative bid values. -/
theorem cashInv_of_reachableNN {s : GameState} (h : ReachableNN s) : cashInv s := by
  induction h with
  | base players config h0 => exact cashInv_new players config h0
  | step a deltas effects ha hprev heq ih =>
      rename_i s s'
      have hstep : cashInv (s.process_action a deltas).1 := by
        cases a with
        | Countdown r => exact countdown_preserves_inv _ r ih
        | Start => exact start_preserves_inv _ ih
        | Tick => exact tick_preserves_inv _ _ ih
        | Bid pid v => exact bid_preserves_inv _ pid v ha ih
        | Ask pid v => exact ask_preserves_inv _ pid v ih
        | CancelBid pid price => exact cancel_bid_preserves_inv _ pid price ih
        | CancelAsk pid price => exact cancel_ask_preserves_inv _ pid price ih
        | End => exact end_preserves_inv _ ih
      rw [heq] at hstep
      exact hstep

/-- Stepping reachability along a successful reducer call. -/
theorem Reachable.stepFst {s : GameState} (a : GameAction) (deltas : PlayerId → ℤ)
    (h : Reachable s) (hok : isOkE (s.process_action a deltas).2 = true) :
    Reachable (s.process_action a deltas).1 := by
  cases he : (s.process_action a deltas).2 with
  | error e =>
      rw [he] at hok
      simp [isOkE] at hok
  | ok effects =>
      refine Reachable.step a deltas effects h ?_
      rw [← he]

/-- Claim C1, counterexample: the state reached from a fresh one-player game
(balance 100) by `Start`, `Bid(-50)`, `Bid(150)`, `CancelBid(-50)` — four
successful `process_action` calls — is `Running` with
`available_cash = -50 < 0`: the negative bid raises available cash, lets an
oversized positive bid through, and cancelling the negative bid then drives
available cash below zero.  `InsufficientFunds` never fires. -/
theorem C1_available_cash_counterexample :
    Reachable cex1Final ∧ cex1Final.phase = .Running ∧
    ((lookupPlayer cex1Final 0).map PlayerState.available_cash).getD 0 = -50 := by
  refine ⟨?_, by decide, by decide⟩
  have h0 : Reachable cex1Game := Reachable.base [0] testConfig
  have h1 := Reachable.stepFst .Start zeroDeltas h0 (by decide)
  have h2 := Reachable.stepFst (.Bid 0 (-50)) zeroDeltas h1 (by decide)
  have h3 := Reachable.stepFst (.Bid 0 150) zeroDeltas h2 (by decide)
  exact Reachable.stepFst (.CancelBid 0 (-50)) zeroDeltas h3 (by decide)

/-- Claim C1, amended: restricted to nonnegative starting balances and
nonnegative `Bid` values, every reachable state (whatever its phase, and in
particular while `Running`) gives every player `available_cash ≥ 0`; and a
`Bid` whose acceptance would violate this — one exceeding the player's
available cash — is rejected with `InsufficientFunds` carrying the available
amount, leaving the state unchanged. -/
theorem C1_available_cash_amended :
    (∀ s : GameState, ReachableNN s → ∀ e ∈ s.players, 0 ≤ e.2.available_cash) ∧
    (∀ (s : GameState) (pid : PlayerId) (v : ℤ) (deltas : PlayerId → ℤ),
      s.phase = .Running →
      ((lookupPlayer s pid).map PlayerState.available_cash).getD 0 < v →
      s.process_action (.Bid pid v) deltas =
        (s, .error (.InsufficientFunds
          (((lookupPlayer s pid).map PlayerState.available_cash).getD 0) v))) := by
  constructor
  · intro s hs e he
    exact ((cashInv_of_reachableNN hs).1 e he).1
  · intro s pid v deltas hphase hlt
    simp only [GameState.process_action, GameState.handle_bid]
    rw [if_neg (by simp [hphase]), if_pos hlt]

/-- Claim C1, witness: the invariant at the concrete fresh test game. -/
theorem C1_available_cash_witness :
    ((0 : PlayerId), PlayerState.new 100) ∈ (GameState.new [0] testConfig).players ∧
    0 ≤ (PlayerState.new 100).available_cash := by
  have hmem : ((0 : PlayerId), PlayerState.new 100) ∈
      (GameState.new [0] testConfig).players := by decide
  exact ⟨hmem, C1_available_cash_amended.1 (GameState.new [0] testConfig)
    (ReachableNN.base [0] testConfig (by decide)) _ hmem⟩

/-! ### Claim C4 — scenario S1 -/

/-- Claim C4, counterexample: after `resolve_bids` at price 30 the player's
`cash` field is 40 (not 20), and after `resolve_asks` at price 100 it is 140
(not 120).  The claimed values 20 and 120 are the `available_cash` view
(which the repository's own test harness checks under the name `cash`). -/
theorem C4_scenario_s1_counterexample :
    ((lookupPlayer s1Resolved 0).map PlayerState.cash).getD 99 = 40 ∧
    ((lookupPlayer s1Final 0).map PlayerState.cash).getD 99 = 140 ∧
    (40 : ℤ) ≠ 20 ∧ (140 : ℤ) ≠ 120 :=
  ⟨by decide, by decide, by decide, by decide⟩

/-- Claim C4, amended: scenario S1 with `available_cash` in place of `cash`:
bids 20, 40, 40 from balance 100 at price 0 leave `available_cash = 0` and
`open_bids = {20, 40, 40}`; `resolve_bids` at price 30 fills the two 40-bids
leaving `available_cash = 20` (cash 40), two shares and `open_bids = {20}`;
after ask 75 and `resolve_asks` at price 100, `available_cash = 120`
(cash 140), one share, no open asks.  Every placement succeeds. -/
theorem C4_scenario_s1_amended :
    isOkE (s1Start.process_action (.Bid 0 20) zeroDeltas).2 = true ∧
    isOkE ((s1Start.process_action (.Bid 0 20) zeroDeltas).1.process_action
      (.Bid 0 40) zeroDeltas).2 = true ∧
    isOkE (((s1Start.process_action (.Bid 0 20) zeroDeltas).1.process_action
      (.Bid 0 40) zeroDeltas).1.process_action (.Bid 0 40) zeroDeltas).2 = true ∧
    ((lookupPlayer s1AfterBids 0).map PlayerState.available_cash).getD 99 = 0 ∧
    ((lookupPlayer s1AfterBids 0).map PlayerState.open_bids).getD [] = [20, 40, 40] ∧
    ((lookupPlayer s1Resolved 0).map PlayerState.available_cash).getD 99 = 20 ∧
    ((lookupPlayer s1Resolved 0).map fun p => p.shares.length).getD 99 = 2 ∧
    ((lookupPlayer s1Resolved 0).map PlayerState.open_bids).getD [] = [20] ∧
    isOkE (s1Resolved.process_action (.Ask 0 75) zeroDeltas).2 = true ∧
    ((lookupPlayer s1Final 0).map PlayerState.available_cash).getD 99 = 120 ∧
    ((lookupPlayer s1Final 0).map fun p => p.shares.length).getD 99 = 1 ∧
    ((lookupPlayer s1Final 0).map PlayerState.open_asks).getD [1] = [] := by
  refine ⟨by decide, by decide, by decide, by decide, by decide, by decide,
    by decide, by decide, by decide, by decide, by decide, by decide⟩

end Pocky
